import Mathlib

/-!
Verification of the auditbeat `system/user` and `system/login` metricsets
(x-pack/auditbeat/module/system/{user,login}) against their specification.

The Go source is shallowly embedded: maps become association lists,
`time.Time`/`time.Duration` become `Int`, machine integers become `Nat`/`Int`,
fallible operations return `Except`, and the `defer`red cleanup calls of
`UtmpFileReader.ReadNew` become an explicit pending-update list that is
applied on every exit path.
-/

set_option maxRecDepth 4000

/-! ## Association lists (shallow embedding of Go maps) -/

/-- Lookup in an association list (embeds Go map indexing). -/
def lookupA {κ α : Type} [DecidableEq κ] : List (κ × α) → κ → Option α
  | [], _ => none
  | (k, v) :: t, i => if k = i then some v else lookupA t i

/-- Insert/replace in an association list (embeds Go map assignment). -/
def insertA {κ α : Type} [DecidableEq κ] : List (κ × α) → κ → α → List (κ × α)
  | [], k, v => [(k, v)]
  | (k', v') :: t, k, v => if k' = k then (k, v) :: t else (k', v') :: insertA t k v

/-- Remove a key from an association list (embeds Go `delete`). -/
def eraseA {κ α : Type} [DecidableEq κ] : List (κ × α) → κ → List (κ × α)
  | [], _ => []
  | (k', v') :: t, k => if k' = k then t else (k', v') :: eraseA t k

/-- The keys of an association list. -/
def keysA {κ α : Type} (m : List (κ × α)) : List κ := m.map (·.1)

section AssocLemmas

variable {κ α : Type} [DecidableEq κ]

theorem lookupA_insertA_self (m : List (κ × α)) (k : κ) (v : α) :
    lookupA (insertA m k v) k = some v := by
  induction m with
  | nil => simp [insertA, lookupA]
  | cons p t ih =>
    obtain ⟨k', v'⟩ := p
    by_cases h : k' = k <;> simp [insertA, lookupA, h, ih]

theorem lookupA_insertA_other (m : List (κ × α)) (k i : κ) (v : α) (h : k ≠ i) :
    lookupA (insertA m k v) i = lookupA m i := by
  induction m with
  | nil => simp [insertA, lookupA, h]
  | cons p t ih =>
    obtain ⟨k', v'⟩ := p
    by_cases hk : k' = k
    · subst hk
      simp only [insertA, if_pos rfl, lookupA, if_neg h]
    · simp only [insertA, if_neg hk, lookupA]
      by_cases hi : k' = i
      · rw [if_pos hi, if_pos hi]
      · rw [if_neg hi, if_neg hi, ih]

theorem lookupA_eq_none_of_not_mem_keysA {m : List (κ × α)} {i : κ}
    (h : i ∉ keysA m) : lookupA m i = none := by
  induction m with
  | nil => simp [lookupA]
  | cons p t ih =>
    obtain ⟨k, v⟩ := p
    simp only [keysA, List.map_cons, List.mem_cons] at h
    push_neg at h
    simp only [lookupA, keysA] at *
    rw [if_neg (fun hk => h.1 hk.symm)]
    exact ih h.2

theorem mem_keysA_of_lookupA_isSome {m : List (κ × α)} {i : κ}
    (h : (lookupA m i).isSome) : i ∈ keysA m := by
  by_contra hmem
  rw [lookupA_eq_none_of_not_mem_keysA hmem] at h
  simp at h

theorem not_mem_keysA_of_lookupA_eq_none {m : List (κ × α)} {i : κ}
    (h : lookupA m i = none) : i ∉ keysA m := by
  intro hmem
  induction m with
  | nil => simp [keysA] at hmem
  | cons p t ih =>
    obtain ⟨k, v⟩ := p
    simp only [lookupA] at h
    by_cases hk : k = i
    · simp [hk] at h
    · rw [if_neg hk] at h
      simp only [keysA, List.map_cons, List.mem_cons] at hmem
      rcases hmem with h1 | h2
      · exact hk h1.symm
      · exact ih h h2

theorem keysA_insertA_subset (m : List (κ × α)) (k : κ) (v : α) :
    keysA (insertA m k v) ⊆ k :: keysA m := by
  induction m with
  | nil =>
    intro x hx
    simp only [insertA, keysA, List.map_cons, List.map_nil, List.mem_cons] at hx ⊢
    tauto
  | cons p t ih =>
    obtain ⟨k', v'⟩ := p
    intro x hx
    by_cases h : k' = k
    · subst h
      simp only [insertA, eq_self_iff_true, if_true, keysA, List.map_cons,
        List.mem_cons] at hx ⊢
      tauto
    · simp only [insertA, if_neg h, keysA, List.map_cons, List.mem_cons] at hx ⊢
      rcases hx with h1 | h2
      · tauto
      · rcases List.mem_cons.1 (ih h2) with h3 | h4
        · tauto
        · simp only [keysA] at h4
          tauto

theorem mem_keysA_insertA_self (m : List (κ × α)) (k : κ) (v : α) :
    k ∈ keysA (insertA m k v) := by
  induction m with
  | nil => simp [insertA, keysA]
  | cons p t ih =>
    obtain ⟨k', v'⟩ := p
    by_cases h : k' = k
    · subst h
      simp [insertA, keysA]
    · simp only [insertA, if_neg h, keysA, List.map_cons, List.mem_cons]
      exact Or.inr ih

theorem keysA_eraseA_subset (m : List (κ × α)) (k : κ) :
    keysA (eraseA m k) ⊆ keysA m := by
  induction m with
  | nil => simp [eraseA]
  | cons p t ih =>
    obtain ⟨k', v'⟩ := p
    intro x hx
    by_cases h : k' = k
    · simp only [eraseA, if_pos h, keysA, List.map_cons, List.mem_cons] at hx ⊢
      tauto
    · simp only [eraseA, if_neg h, keysA, List.map_cons, List.mem_cons] at hx ⊢
      rcases hx with h1 | h2
      · tauto
      · exact Or.inr (ih h2)

/-- Keys of an association list are pairwise distinct. -/
def NodupKeysA {κ α : Type} (m : List (κ × α)) : Prop := (keysA m).Nodup

theorem nodupKeysA_insertA {m : List (κ × α)} (k : κ) (v : α)
    (h : NodupKeysA m) : NodupKeysA (insertA m k v) := by
  induction m with
  | nil => simp [insertA, NodupKeysA, keysA]
  | cons p t ih =>
    obtain ⟨k', v'⟩ := p
    simp only [NodupKeysA, keysA, List.map_cons, List.nodup_cons] at h
    by_cases hk : k' = k
    · subst hk
      simpa [insertA, NodupKeysA, keysA] using h
    · have ht := ih h.2
      simp only [insertA, if_neg hk, NodupKeysA, keysA, List.map_cons, List.nodup_cons]
      refine ⟨?_, ht⟩
      intro hmem
      rcases List.mem_cons.1 (keysA_insertA_subset t k v hmem) with h1 | h2
      · exact hk h1
      · exact h.1 h2

theorem nodupKeysA_eraseA {m : List (κ × α)} (k : κ)
    (h : NodupKeysA m) : NodupKeysA (eraseA m k) := by
  induction m with
  | nil => simp [eraseA, NodupKeysA, keysA]
  | cons p t ih =>
    obtain ⟨k', v'⟩ := p
    simp only [NodupKeysA, keysA, List.map_cons, List.nodup_cons] at h
    by_cases hk : k' = k
    · simpa [eraseA, hk, NodupKeysA] using h.2
    · simp only [eraseA, if_neg hk, NodupKeysA, keysA, List.map_cons, List.nodup_cons]
      refine ⟨?_, ih h.2⟩
      intro hmem
      exact h.1 (keysA_eraseA_subset t k hmem)

theorem not_mem_keysA_eraseA {m : List (κ × α)} (k : κ)
    (h : NodupKeysA m) : k ∉ keysA (eraseA m k) := by
  induction m with
  | nil => simp [eraseA, keysA]
  | cons p t ih =>
    obtain ⟨k', v'⟩ := p
    simp only [NodupKeysA, keysA, List.map_cons, List.nodup_cons] at h
    by_cases hk : k' = k
    · subst hk
      simpa [eraseA, keysA] using h.1
    · simp only [eraseA, if_neg hk, keysA, List.map_cons, List.mem_cons]
      push_neg
      exact ⟨fun he => hk he.symm, ih h.2⟩

end AssocLemmas

/-! ## The `system/user` metricset (x-pack/auditbeat/module/system/user/user.go) -/

/-- `User` from user.go: fields according to getpwent(3). -/
structure User where
  Name : String
  Passwd : String
  UID : Nat
  GID : Nat
  UserInfo : String
  Dir : String
  Shell : String
deriving DecidableEq, Repr

/-- Modelled from the spec: stands in for the external 64-bit xxhash digest of a
byte stream (the `github.com/OneOfOne/xxhash` library is not part of src/).
Only the property that the digest is a function of the written byte stream is
relied upon. -/
def xxhashSum64 (stream : List Char) : Nat :=
  stream.foldl (fun h c => (h * 131 + c.toNat) % 18446744073709551616) 5381

/-- The byte stream written into the hash by `User.Hash` (user.go:73-83):
everything except `UserInfo`, with UID/GID rendered in decimal as by
`strconv.Itoa`. -/
def User.hashStream (u : User) : String :=
  u.Name ++ u.Passwd ++ toString u.UID ++ toString u.GID ++ u.Dir ++ u.Shell

/-- `User.Hash` from user.go: the 64-bit fingerprint used as diff-cache key. -/
def User.Hash (u : User) : Nat :=
  xxhashSum64 u.hashStream.toList

/-- Modelled from the spec: the diff cache's `diff_and_update`
(`x-pack/auditbeat/cache`, not part of src/). The cache holds the previously
observed items keyed by fingerprint; the call returns the items whose
fingerprint is new, the cached items whose fingerprint disappeared, and the
cache is replaced by the new items. -/
def diffAndUpdateCache (prior new : List User) : List User × List User :=
  (new.filter (fun u => !((prior.map User.Hash).contains u.Hash)),
   prior.filter (fun p => !((new.map User.Hash).contains p.Hash)))

/-- The uid-classification loop of `compareUsers` (user.go:319-328), with the
Go slice appends and map mutations made explicit. The accumulator is
(changed-so-far, added-so-far, remaining uid index). -/
def classifyLoop : List User → List User × List User × List (Nat × User) →
    List User × List User × List (Nat × User)
  | [], acc => acc
  | u :: rest, (ch, ad, m) =>
    if (lookupA m u.UID).isSome then classifyLoop rest (ch ++ [u], ad, eraseA m u.UID)
    else classifyLoop rest (ch, ad ++ [u], m)

/-- The classification step of `compareUsers` (user.go:312-342), taking the two
sides of the diff-cache result. Returns (added, removed, changed). -/
def classifyUsers (newInCache missingFromCache : List User) :
    List User × List User × List User :=
  if newInCache.length > 0 && missingFromCache.length > 0 then
    let missingUserMap := missingFromCache.foldl (fun m mu => insertA m mu.UID mu) []
    let res := classifyLoop newInCache ([], [], missingUserMap)
    (res.2.1, res.2.2.map (·.2), res.1)
  else
    (newInCache, missingFromCache, [])

/-- `compareUsers` from user.go: diff the new user list against the cache and
classify the result. The cache contents (previously observed users) are the
explicit first argument. Returns (added, removed, changed). -/
def compareUsers (cacheUsers users : List User) : List User × List User × List User :=
  let d := diffAndUpdateCache cacheUsers users
  classifyUsers d.1 d.2

/-- Modelled from the spec (§4.2 step 4): "build an index of `newly_absent` by
uid; each `newly_present` entry whose uid is present in that index is
classified changed (paired with the matching absent entry, which is removed
from the index); remaining `newly_present` are added; remaining `newly_absent`
are removed." Written as a structural recursion, to be compared with the
accumulator loop of the source. -/
def classifySpecWalk : List User → List (Nat × User) →
    List User × List User × List (Nat × User)
  | [], idx => ([], [], idx)
  | u :: rest, idx =>
    if (lookupA idx u.UID).isSome then
      let r := classifySpecWalk rest (eraseA idx u.UID)
      (r.1, u :: r.2.1, r.2.2)
    else
      let r := classifySpecWalk rest idx
      (u :: r.1, r.2.1, r.2.2)

/-- Modelled from the spec (§4.2 step 4): the full classification, returning
(added, removed, changed). -/
def classifySpec (newInCache missingFromCache : List User) :
    List User × List User × List User :=
  if newInCache.length > 0 && missingFromCache.length > 0 then
    let idx := missingFromCache.foldl (fun m mu => insertA m mu.UID mu) []
    let r := classifySpecWalk newInCache idx
    (r.1, r.2.2.map (·.2), r.2.1)
  else
    (newInCache, missingFromCache, [])

/-- Event constants from user.go:36-43. -/
def eventTypeState : String := "state"

def eventTypeEvent : String := "event"

def eventActionUserExists : String := "existing_user"

def eventActionUserAdded : String := "user_added"

def eventActionUserRemoved : String := "user_removed"

def eventActionUserChanged : String := "user_changed"

/-- The observable part of an `mb.Event` produced by `userEvent`
(user.go:295-305): event.type, event.action and the user payload. -/
structure UserMbEvent where
  eventType : String
  action : String
  user : User
deriving DecidableEq, Repr

/-- `userEvent` from user.go:295-305. -/
def userEvent (u : User) (t a : String) : UserMbEvent := ⟨t, a, u⟩

/-- The state of a `MetricSet` that `Fetch` reads and writes: the time of the
last state resync and the diff-cache contents. -/
structure MetricSetState where
  lastState : Int
  cacheUsers : List User
deriving Repr

/-- The events `reportState` (user.go:244-270) hands to the reporter. -/
def reportStateEvents (users : List User) : List UserMbEvent :=
  users.map (fun u => userEvent u eventTypeState eventActionUserExists)

/-- The events `reportChanges` (user.go:273-293) hands to the reporter, given
the diff-cache contents at the time of the call. -/
def reportChangesEvents (cacheUsers users : List User) : List UserMbEvent :=
  let r := compareUsers cacheUsers users
  r.1.map (fun u => userEvent u eventTypeEvent eventActionUserAdded)
    ++ r.2.1.map (fun u => userEvent u eventTypeEvent eventActionUserRemoved)
    ++ r.2.2.map (fun u => userEvent u eventTypeEvent eventActionUserChanged)

/-- The outcome of one `Fetch` poll: the state-resync events, the delta
events, and the state afterwards. -/
structure FetchOut where
  stateEvents : List UserMbEvent
  changeEvents : List UserMbEvent
  state : MetricSetState
deriving Repr

/-- `Fetch` from user.go:215-241. `needsStateUpdate` is
`time.Since(ms.lastState) > ms.config.effectiveStatePeriod()` (user.go:225);
on a resync, `reportState` re-initializes the cache with the current users
before `reportChanges` diffs against it. -/
def Fetch (now statePeriod : Int) (st : MetricSetState) (users : List User) :
    FetchOut :=
  let needsStateUpdate := decide (now - st.lastState > statePeriod)
  if needsStateUpdate || st.cacheUsers.isEmpty then
    { stateEvents := reportStateEvents users
      changeEvents := reportChangesEvents users users
      state := { lastState := now, cacheUsers := users } }
  else
    { stateEvents := []
      changeEvents := reportChangesEvents st.cacheUsers users
      state := { lastState := st.lastState, cacheUsers := users } }

/-! ## The `system/login` metricset (x-pack/auditbeat/module/system/login) -/

/-- `Utmp` from the login metricset: data from the C utmp struct. The
timestamp is the microsecond-resolution `UtTv` as an integer; the address
words are the four 32-bit words of `ut_addr_v6`. -/
structure Utmp where
  UtType : Int
  UtPid : Int
  UtLine : String
  UtUser : String
  UtHost : String
  UtTv : Int
  UtAddrV6 : Nat × Nat × Nat × Nat
deriving DecidableEq, Repr, Inhabited

/-- utmp(5) record-type constants (see the comments in the source:
RUN_LVL=1, BOOT_TIME=2, USER_PROCESS=7, DEAD_PROCESS=8). -/
def RUN_LVL : Int := 1

def BOOT_TIME : Int := 2

def USER_PROCESS : Int := 7

def DEAD_PROCESS : Int := 8

/-- Modelled from the spec: the session-event kinds
{user_login, user_logout, boot, shutdown, unknown} (the Go enumeration
`loginRecordType` is declared outside src/; utmp.go uses the constants
`bootRecord`, `shutdownRecord`, `userLoginRecord`, `userLogoutRecord`, and the
older cgo variant additionally `LoginRecordTypeUnknown`). -/
inductive LoginRecType where
  | unknownRecord
  | bootRecord
  | shutdownRecord
  | userLoginRecord
  | userLogoutRecord
deriving DecidableEq, Repr, Inhabited

/-- The 4 little-endian bytes of a 32-bit word. -/
def le32 (w : Nat) : List Nat :=
  [w % 256, w / 256 % 256, w / 65536 % 256, w / 16777216 % 256]

/-- `newIP` from utmp.go:364-384: if words 1..3 are non-zero the address is
the 16 IPv6 bytes of all four words, else the 4 IPv4 bytes of word 0, all
little-endian. -/
def newIP (a : Nat × Nat × Nat × Nat) : List Nat :=
  if a.2.1 ≠ 0 ∨ a.2.2.1 ≠ 0 ∨ a.2.2.2 ≠ 0 then
    le32 a.1 ++ le32 a.2.1 ++ le32 a.2.2.1 ++ le32 a.2.2.2
  else
    le32 a.1

/-- `LoginRecord` from the login metricset. The Go field `Type` is renamed
`recordType` (`Type` is reserved in Lean); `IP` is `none` where the Go pointer
is nil. Zero values of the remaining fields mirror Go zero values. -/
structure LoginRecord where
  Utmp : Utmp
  recordType : LoginRecType
  Timestamp : Int
  TTY : String
  Username : String
  UID : Int
  PID : Int
  IP : Option (List Nat)
  Hostname : String
  Origin : String
deriving DecidableEq, Repr

/-- The open-session table `loginSessions`: terminal line → login record. -/
abbrev SessionTable := List (String × LoginRecord)

/-- `processLoginRecord` from utmp.go:261-345. `lookupUsername`
(utmp.go:350-362) consults the OS user database and is therefore passed in as
a function. Returns the optional emitted record and the open-session table
afterwards. -/
def processLoginRecord (lookupUsername : String → Int) (sessions : SessionTable)
    (utmp : Utmp) : Option LoginRecord × SessionTable :=
  let record : LoginRecord :=
    { Utmp := utmp
      recordType := default
      Timestamp := utmp.UtTv
      TTY := if utmp.UtLine ≠ "~" then utmp.UtLine else ""
      Username := ""
      UID := -1
      PID := -1
      IP := none
      Hostname := ""
      Origin := "" }
  if utmp.UtType = RUN_LVL then
    -- The runlevel - though a number - is stored as the ASCII character of
    -- that number; string(rune(utmp.UtPid)) equals "0"/"6" iff UtPid is 48/54.
    if utmp.UtUser = "shutdown" ∨ utmp.UtPid = 48 ∨ utmp.UtPid = 54 then
      (some { record with recordType := .shutdownRecord }, [])
    else
      (none, sessions)
  else if utmp.UtType = BOOT_TIME then
    if utmp.UtLine = "~" ∧ utmp.UtUser = "reboot" then
      (some { record with recordType := .bootRecord }, [])
    else
      (none, sessions)
  else if utmp.UtType = USER_PROCESS then
    let rec' : LoginRecord :=
      { record with
        recordType := .userLoginRecord
        Username := utmp.UtUser
        UID := lookupUsername utmp.UtUser
        PID := utmp.UtPid
        IP := some (newIP utmp.UtAddrV6)
        Hostname := utmp.UtHost }
    (some rec', insertA sessions rec'.TTY rec')
  else if utmp.UtType = DEAD_PROCESS then
    match lookupA sessions record.TTY with
    | some savedRecord =>
      (some { record with
          recordType := .userLogoutRecord
          Username := savedRecord.Username
          UID := savedRecord.UID
          PID := savedRecord.PID
          IP := savedRecord.IP
          Hostname := savedRecord.Hostname }, sessions)
    | none => (none, sessions)
  else
    (none, sessions)

/-- `processLoginRecord` of the older cgo variant of the file
(src/unnamed/part_000:301-384). It differs from utmp.go only in the
BOOT_TIME case: a boot-time record that is not the "~"/"reboot" pair gets
`LoginRecordTypeUnknown` instead of being dropped. -/
def processLoginRecordCgo (lookupUsername : String → Int) (sessions : SessionTable)
    (utmp : Utmp) : Option LoginRecord × SessionTable :=
  let record : LoginRecord :=
    { Utmp := utmp
      recordType := default
      Timestamp := utmp.UtTv
      TTY := if utmp.UtLine ≠ "~" then utmp.UtLine else ""
      Username := ""
      UID := -1
      PID := -1
      IP := none
      Hostname := ""
      Origin := "" }
  if utmp.UtType = RUN_LVL then
    if utmp.UtUser = "shutdown" ∨ utmp.UtPid = 48 ∨ utmp.UtPid = 54 then
      (some { record with recordType := .shutdownRecord }, [])
    else
      (none, sessions)
  else if utmp.UtType = BOOT_TIME then
    if utmp.UtLine = "~" ∧ utmp.UtUser = "reboot" then
      (some { record with recordType := .bootRecord }, [])
    else
      (some { record with recordType := .unknownRecord }, sessions)
  else if utmp.UtType = USER_PROCESS then
    let rec' : LoginRecord :=
      { record with
        recordType := .userLoginRecord
        Username := utmp.UtUser
        UID := lookupUsername utmp.UtUser
        PID := utmp.UtPid
        IP := some (newIP utmp.UtAddrV6)
        Hostname := utmp.UtHost }
    (some rec', insertA sessions rec'.TTY rec')
  else if utmp.UtType = DEAD_PROCESS then
    match lookupA sessions record.TTY with
    | some savedRecord =>
      (some { record with
          recordType := .userLogoutRecord
          Username := savedRecord.Username
          UID := savedRecord.UID
          PID := savedRecord.PID
          IP := savedRecord.IP
          Hostname := savedRecord.Hostname }, sessions)
    | none => (none, sessions)
  else
    (none, sessions)

/-- The comparison at utmp.go:227:
`reflect.DeepEqual(utmp, *lastKnownRecord)`. Its first operand `utmp` is the
`*Utmp` pointer returned by `ReadNextUtmp` (dereferenced as `*utmp` on line
224), its second operand is the `Utmp` value `*lastKnownRecord`;
`reflect.DeepEqual` is false whenever its operands have distinct dynamic
types, so this comparison is false for every pair of operand values. -/
def deepEqualPtrValue (_utmpPtr : Utmp) (_lastKnown : Utmp) : Bool := false

/-- The read loop of `readAfter` (utmp.go:210-256) over the record sequence of
the file. `whole` is the full record sequence (used by the seek-to-beginning
restart at end-of-file), `reached` is `reachedNewRecords`. The match against
the saved record is the (type-mismatched, hence constantly false)
`reflect.DeepEqual` call of utmp.go:227. -/
def readAfterLoop (whole : List Utmp) (lastKnownRecord : Option Utmp) :
    List Utmp → Bool → List Utmp
  | [], reached =>
    -- End of file: if the saved record was never seen, seek to the beginning
    -- and re-read with reachedNewRecords set, i.e. collect the whole file.
    if !reached && lastKnownRecord.isSome then whole else []
  | u :: rest, reached =>
    (if reached then [u] else [])
      ++ readAfterLoop whole lastKnownRecord rest
          (reached ||
            (match lastKnownRecord with
             | some r => deepEqualPtrValue u r
             | none => false))

/-- `readAfter` from utmp.go:210-256. Because the comparison on line 227 can
never succeed, a non-nil last known record is never found and the whole file
is returned on every call. -/
def readAfter (content : List Utmp) (lastKnownRecord : Option Utmp) : List Utmp :=
  readAfterLoop content lastKnownRecord content lastKnownRecord.isNone

/-- The read loop of the older cgo variant's `readAfter`
(src/unnamed/part_000:242-297). There `utmp := newUtmp(utmpC)` is a `Utmp`
value (part_000:266), so `reflect.DeepEqual(utmp, *lastKnownRecord)`
(part_000:275) is a genuine structural comparison of record values; the
end-of-file restart is the recursive call `readAfter(path, nil)`, which
collects the whole file. -/
def readAfterCgoLoop (whole : List Utmp) (lastKnownRecord : Option Utmp) :
    List Utmp → Bool → List Utmp
  | [], reached =>
    if !reached && lastKnownRecord.isSome then whole else []
  | u :: rest, reached =>
    (if reached then [u] else [])
      ++ readAfterCgoLoop whole lastKnownRecord rest
          (reached || decide (lastKnownRecord = some u))

/-- `readAfter` of the older cgo variant (src/unnamed/part_000:242-297): the
records of the file strictly after the last known record (all of them if
`lastKnownRecord` is `none` or never found). -/
def readAfterCgo (content : List Utmp) (lastKnownRecord : Option Utmp) : List Utmp :=
  readAfterCgoLoop content lastKnownRecord content lastKnownRecord.isNone

/-- `FileRecord` from utmp.go:38-42: a UTMP file at a point in time. The
inode is the key of the cursor table; `LastUtmp` is the Go zero value
(`default`) when no record has been stored yet. -/
structure FileRecord where
  Inode : Nat
  Size : Int
  LastUtmp : Utmp
deriving DecidableEq, Repr, Inhabited

/-- The cursor table `fileRecords`: inode → cursor. -/
abbrev FileRecordTable := List (Nat × FileRecord)

/-- The mutable state of a `UtmpFileReader`. -/
structure ReaderState where
  fileRecords : FileRecordTable
  loginSessions : SessionTable
deriving Repr

/-- The `LastUtmp` stored by `updateFileRecord` (utmp.go:189-205): the last
record of this read if any were parsed, otherwise the value carried over from
the old cursor (Go zero value if there was none). -/
def newLastUtmp (utmpRecords : List Utmp) (old : Option FileRecord) : Utmp :=
  match utmpRecords.getLast? with
  | some u => u
  | none =>
    match old with
    | some fr => fr.LastUtmp
    | none => default

/-- `updateFileRecord` from utmp.go:189-205. -/
def updateFileRecord (fileRecords : FileRecordTable) (inode : Nat) (size : Int)
    (utmpRecords : List Utmp) : FileRecordTable :=
  insertA fileRecords inode
    { Inode := inode, Size := size,
      LastUtmp := newLastUtmp utmpRecords (lookupA fileRecords inode) }

/-- `deleteOldRecords` from utmp.go:172-187: drop every cursor whose inode
was not observed in this poll. -/
def deleteOldRecords (fileRecords : FileRecordTable) (existingInodes : List Nat) :
    FileRecordTable :=
  fileRecords.filter (fun p => existingInodes.contains p.1)

/-- The outcome of stat-ing one path in `ReadNew` (utmp.go:93-104). -/
inductive StatOutcome where
  | notExist
  | statErr
  | found (inode : Nat) (size : Int)
deriving DecidableEq, Repr

/-- One path produced by expanding the file pattern, together with the
outcomes of the I/O performed on it during this poll: the stat result, whether
`os.Open` succeeds, whether reading records out of it succeeds, and the
record sequence it contains. -/
structure PathObs where
  path : String
  stat : StatOutcome
  openOk : Bool
  readOk : Bool
  content : List Utmp
deriving Repr

/-- A deferred `updateFileRecord(inode, size, &utmpRecords)` call
(utmp.go:137); `recs` is the value of `utmpRecords` when the deferred call
runs. -/
structure PendingUpdate where
  inode : Nat
  size : Int
  recs : List Utmp
deriving DecidableEq, Repr

/-- The in-flight data of one `ReadNew` call: the reader state, the inodes
observed so far (utmp.go:80,105), the deferred cursor updates in registration
order (utmp.go:137), and the login records collected so far. -/
structure ReadAcc where
  st : ReaderState
  inodes : List Nat
  pending : List PendingUpdate
  events : List LoginRecord
deriving Repr

/-- The records `readAfter` hands back for one file, as observed by the
deferred `updateFileRecord`: empty if opening or reading failed, otherwise
whatever `readAfter` returns for the file content and the stored cursor
record (`none` for an unknown inode). -/
def readRecsOf (fileRecords : FileRecordTable) (f : PathObs) (inode : Nat)
    (newSize : Int) : List Utmp :=
  if !f.openOk || !f.readOk then []
  else
    let old := lookupA fileRecords inode
    let oldSize : Int := match old with | some fr => fr.Size | none => 0
    let isKnownFile := old.isSome && !(decide (newSize < oldSize))
    readAfter f.content
      (if isKnownFile then some ((old.getD default).LastUtmp) else none)

/-- Folding `processLoginRecord` over the records of one file
(utmp.go:157-163): emitted records get `Origin` set to the file path. -/
def processRecords (lookupUsername : String → Int) (sessions : SessionTable)
    (path : String) : List Utmp → List LoginRecord × SessionTable
  | [] => ([], sessions)
  | u :: rest =>
    let r := processLoginRecord lookupUsername sessions u
    let more := processRecords lookupUsername r.2 path rest
    ((match r.1 with
      | some lr => [{ lr with Origin := path }]
      | none => []) ++ more.1, more.2)

/-- The per-path body of the `ReadNew` loop (utmp.go:92-166). An early
`return nil, err` is an `Except.error` carrying the accumulator so that the
deferred calls can still run on that exit path. -/
def processOnePath (lookupUsername : String → Int) (a : ReadAcc) (f : PathObs) :
    Except (String × ReadAcc) ReadAcc :=
  match f.stat with
  | .notExist => .ok a
  | .statErr => .error ("unexpected error when looking up file", a)
  | .found inode newSize =>
    let a := { a with inodes := a.inodes ++ [inode] }
    let old := lookupA a.st.fileRecords inode
    let oldSize : Int := match old with | some fr => fr.Size | none => 0
    -- newSize < oldSize is treated as inode reuse: read the whole file.
    let isKnownFile := old.isSome && !(decide (newSize < oldSize))
    if !isKnownFile && decide (newSize = 0) then
      -- Empty new file - save but don't read.
      .ok { a with st := { a.st with
              fileRecords := updateFileRecord a.st.fileRecords inode newSize [] } }
    else if !isKnownFile || !(decide (newSize = oldSize)) then
      let recs := readRecsOf a.st.fileRecords f inode newSize
      -- Once we start reading a file, the file record is updated even if
      -- something fails: the update is registered before opening the file.
      let a := { a with pending := a.pending ++ [⟨inode, newSize, recs⟩] }
      if !f.openOk then .error ("error opening", a)
      else if !f.readOk then .error ("error reading file", a)
      else if recs.isEmpty then .error ("unexpectedly, there are no new records", a)
      else
        let pr := processRecords lookupUsername a.st.loginSessions f.path recs
        .ok { a with
          st := { a.st with loginSessions := pr.2 }
          events := a.events ++ pr.1 }
    else
      .ok a

/-- The `ReadNew` loop over all paths, stopping at the first early return. -/
def runPaths (lookupUsername : String → Int) :
    List PathObs → ReadAcc → Except (String × ReadAcc) ReadAcc
  | [], a => .ok a
  | f :: fs, a =>
    match processOnePath lookupUsername a f with
    | .ok a' => runPaths lookupUsername fs a'
    | .error e => .error e

/-- Applying a sequence of deferred `updateFileRecord` calls in order. -/
def applyPends (fileRecords : FileRecordTable) : List PendingUpdate → FileRecordTable
  | [] => fileRecords
  | p :: l => applyPends (updateFileRecord fileRecords p.inode p.size p.recs) l

/-- Running the deferred calls of `ReadNew` on function exit: the deferred
`updateFileRecord`s in last-in-first-out order, then `deleteOldRecords` with
the observed inodes (it was registered first, so it runs last). -/
def finishRead (a : ReadAcc) : ReaderState :=
  { fileRecords := deleteOldRecords (applyPends a.st.fileRecords a.pending.reverse) a.inodes
    loginSessions := a.st.loginSessions }

/-- The result of one `ReadNew` poll: the emitted login records (or the
error of an early return) and the reader state after all deferred calls. -/
structure ReadNewOut where
  result : Except String (List LoginRecord)
  state : ReaderState
deriving Repr

/-- The accumulator at the start of a `ReadNew` call. -/
def initAcc (st : ReaderState) : ReadAcc :=
  { st := st, inodes := [], pending := [], events := [] }

/-- `ReadNew` from utmp.go:79-169. `globOk` is whether expanding the file
pattern succeeded; `paths` is the expanded, reverse-sorted path list with the
I/O outcomes of this poll. -/
def ReadNew (lookupUsername : String → Int) (globOk : Bool) (paths : List PathObs)
    (st : ReaderState) : ReadNewOut :=
  if !globOk then
    { result := .error "failed to expand file pattern"
      state := finishRead (initAcc st) }
  else
    match runPaths lookupUsername paths (initAcc st) with
    | .ok a => { result := .ok a.events, state := finishRead a }
    | .error (msg, a) => { result := .error msg, state := finishRead a }

/-- The inodes of the paths whose stat succeeds. -/
def observedInodes (paths : List PathObs) : List Nat :=
  paths.filterMap (fun f => match f.stat with | .found i _ => some i | _ => none)

/-- The condition under which `ReadNew` starts reading a file
(utmp.go:124-130): not the empty-new-file case, and the file is unknown or
its size changed. -/
def readTriggered (fileRecords : FileRecordTable) (inode : Nat) (newSize : Int) : Bool :=
  let old := lookupA fileRecords inode
  let oldSize : Int := match old with | some fr => fr.Size | none => 0
  let isKnownFile := old.isSome && !(decide (newSize < oldSize))
  !(!isKnownFile && decide (newSize = 0)) && (!isKnownFile || !(decide (newSize = oldSize)))

/-- The accumulator carried by either outcome of the `ReadNew` loop. -/
def accOf : Except (String × ReadAcc) ReadAcc → ReadAcc
  | .ok a => a
  | .error (_, a) => a

/-! ## Concrete sample data used by counterexamples and witnesses -/

/-- A UTMP record that only carries a timestamp (all other fields zero). -/
def plainUtmp (t : Int) : Utmp :=
  { UtType := 0, UtPid := 0, UtLine := "", UtUser := "", UtHost := "", UtTv := t,
    UtAddrV6 := (0, 0, 0, 0) }

/-- A USER_PROCESS record: alice logs in on pts/0 with pid 42. -/
def loginUtmp : Utmp :=
  { UtType := 7, UtPid := 42, UtLine := "pts/0", UtUser := "alice", UtHost := "host1",
    UtTv := 5, UtAddrV6 := (1, 0, 0, 0) }

/-- A DEAD_PROCESS record on pts/0 (no user name, as written by the OS). -/
def logoutUtmp : Utmp :=
  { UtType := 8, UtPid := 0, UtLine := "pts/0", UtUser := "", UtHost := "",
    UtTv := 6, UtAddrV6 := (0, 0, 0, 0) }

/-- A BOOT_TIME record whose terminal line is not "~". -/
def bootOtherUtmp : Utmp :=
  { UtType := 2, UtPid := 0, UtLine := "pts/1", UtUser := "root", UtHost := "",
    UtTv := 7, UtAddrV6 := (0, 0, 0, 0) }

/-- A sample OS user database: only alice exists, with uid 1000. -/
def sampleLookup : String → Int := fun s => if s = "alice" then 1000 else -1

/-- alice with /bin/bash. -/
def aliceBash : User := ⟨"alice", "x", 1000, 1000, "", "/home/alice", "/bin/bash"⟩

/-- alice with /bin/zsh (same uid, different shell). -/
def aliceZsh : User := ⟨"alice", "x", 1000, 1000, "", "/home/alice", "/bin/zsh"⟩

/-- Three accounts sharing uid 1000. -/
def dupA : User := ⟨"a", "x", 1000, 0, "", "/h", ""⟩

def dupB : User := ⟨"b", "x", 1000, 0, "", "/h", ""⟩

def dupC : User := ⟨"c", "x", 1000, 0, "", "/h", "/bin/sh"⟩

/-- A reader state that already tracks inodes 7 and 8. -/
def sampleReaderState : ReaderState :=
  ⟨[(7, ⟨7, 100, plainUtmp 1⟩), (8, ⟨8, 50, plainUtmp 2⟩)], []⟩

/-- Inode 7 grew from 100 to 200 bytes but opening it fails. -/
def growOpenFail : PathObs :=
  ⟨"/var/log/wtmp", .found 7 200, false, true, [plainUtmp 1, plainUtmp 4]⟩

/-- A fresh, empty file with inode 9. -/
def emptyNewFile : PathObs :=
  ⟨"/var/log/btmp", .found 9 0, true, true, []⟩

/-- A path whose stat fails with a non-not-exist error. -/
def statErrFile : PathObs :=
  ⟨"/var/log/wtmp.1", .statErr, true, true, []⟩

/-! ## Claim theorems -/

/-- Two users that agree on every field except the display/comment text. -/
def sameExceptUserInfo (a b : User) : Prop :=
  a.Name = b.Name ∧ a.Passwd = b.Passwd ∧ a.UID = b.UID ∧ a.GID = b.GID ∧
    a.Dir = b.Dir ∧ a.Shell = b.Shell

theorem hash_eq_of_sameExceptUserInfo {a b : User} (h : sameExceptUserInfo a b) :
    a.Hash = b.Hash := by
  obtain ⟨h1, h2, h3, h4, h5, h6⟩ := h
  simp only [User.Hash, User.hashStream, h1, h2, h3, h4, h5, h6]

theorem map_hash_eq_of_forall₂ {l₁ l₂ : List User}
    (h : List.Forall₂ sameExceptUserInfo l₁ l₂) :
    l₁.map User.Hash = l₂.map User.Hash := by
  induction h with
  | nil => rfl
  | cons hab _ ih => simp [hash_eq_of_sameExceptUserInfo hab, ih]

/-- C9: the 64-bit fingerprint ignores the display/comment text, and a poll
whose only difference from the prior snapshot is comment text produces no
added/removed/changed users and hence no user events. -/
theorem hash_ignores_userInfo :
    (∀ a b : User, sameExceptUserInfo a b → a.Hash = b.Hash) ∧
    (∀ cacheUsers users : List User,
      List.Forall₂ sameExceptUserInfo cacheUsers users →
      compareUsers cacheUsers users = ([], [], []) ∧
      reportChangesEvents cacheUsers users = []) := by
  constructor
  · exact fun a b h => hash_eq_of_sameExceptUserInfo h
  · intro cacheUsers users h
    have hmap := map_hash_eq_of_forall₂ h
    have hnew : users.filter
        (fun u => !((cacheUsers.map User.Hash).contains u.Hash)) = [] := by
      apply List.filter_eq_nil_iff.2
      intro u hu
      rw [hmap]
      have hm : u.Hash ∈ users.map User.Hash := List.mem_map_of_mem User.Hash hu
      simpa using hm
    have hmiss : cacheUsers.filter
        (fun p => !((users.map User.Hash).contains p.Hash)) = [] := by
      apply List.filter_eq_nil_iff.2
      intro u hu
      rw [← hmap]
      have hm : u.Hash ∈ cacheUsers.map User.Hash := List.mem_map_of_mem User.Hash hu
      simpa using hm
    have hd : diffAndUpdateCache cacheUsers users = ([], []) := by
      unfold diffAndUpdateCache
      rw [hnew, hmiss]
    have hcmp : compareUsers cacheUsers users = ([], [], []) := by
      unfold compareUsers
      rw [hd]
      simp [classifyUsers]
    refine ⟨hcmp, ?_⟩
    simp [reportChangesEvents, hcmp]

/-- alice with comment text "Alice A.". -/
def aliceInfoA : User := ⟨"alice", "x", 1000, 1000, "Alice A.", "/home/alice", "/bin/sh"⟩

/-- alice with comment text "Alice B.". -/
def aliceInfoB : User := ⟨"alice", "x", 1000, 1000, "Alice B.", "/home/alice", "/bin/sh"⟩

/-- C9 witness: a concrete pair differing only in the comment text. -/
theorem hash_ignores_userInfo_witness :
    aliceInfoA.Hash = aliceInfoB.Hash ∧
    compareUsers [aliceInfoA] [aliceInfoB] = ([], [], []) :=
  ⟨hash_ignores_userInfo.1 aliceInfoA aliceInfoB ⟨rfl, rfl, rfl, rfl, rfl, rfl⟩,
   (hash_ignores_userInfo.2 [aliceInfoA] [aliceInfoB]
      (List.Forall₂.cons ⟨rfl, rfl, rfl, rfl, rfl, rfl⟩ List.Forall₂.nil)).1⟩

/-- C2 counterexample: on the poll where the elapsed time exactly equals the
state period (now − lastState = 10 = statePeriod) and the cache is non-empty,
`Fetch` does not fire a state resync — `needsStateUpdate` uses a strict
comparison (user.go:225) — contradicting the claim that the resync fires when
the elapsed time is greater than *or equal to* the period. -/
theorem resync_exact_period_no_fire :
    (Fetch 10 10 ⟨0, [aliceBash]⟩ [aliceBash]).stateEvents = [] := by
  rfl

/-- C2 (amended): a state resync fires on a poll if and only if the diff
cache is empty or the elapsed time since the last resync is *strictly
greater* than the state period; at exact equality no resync fires. -/
theorem resync_fires_iff (now statePeriod : Int) (st : MetricSetState)
    (users : List User) (h : users ≠ []) :
    (Fetch now statePeriod st users).stateEvents ≠ [] ↔
      (st.cacheUsers = [] ∨ now - st.lastState > statePeriod) := by
  unfold Fetch
  by_cases hgt : now - st.lastState > statePeriod
  · simp [hgt, reportStateEvents, h]
  · by_cases hemp : st.cacheUsers = []
    · simp [hgt, hemp, reportStateEvents, h]
    · simp [hgt, hemp, reportStateEvents, List.isEmpty_iff]

/-- C2 witness: one unit past the period the resync does fire, and with an
empty cache it fires as well. -/
theorem resync_fires_iff_witness :
    (Fetch 11 10 ⟨0, [aliceBash]⟩ [aliceBash]).stateEvents ≠ [] ∧
    (Fetch 3 10 ⟨0, []⟩ [aliceBash]).stateEvents ≠ [] :=
  ⟨(resync_fires_iff 11 10 ⟨0, [aliceBash]⟩ [aliceBash] (by decide)).2
      (Or.inr (by decide)),
   (resync_fires_iff 3 10 ⟨0, []⟩ [aliceBash] (by decide)).2 (Or.inl rfl)⟩

theorem readAfterCgoLoop_reached (whole : List Utmp) (last : Option Utmp) :
    ∀ l : List Utmp, readAfterCgoLoop whole last l true = l := by
  intro l
  induction l with
  | nil => simp [readAfterCgoLoop]
  | cons u rest ih => simp [readAfterCgoLoop, ih]

theorem readAfterCgoLoop_searching (whole : List Utmp) (r : Utmp) :
    ∀ l : List Utmp,
      readAfterCgoLoop whole (some r) l false =
        if r ∈ l then (l.dropWhile (fun x => !decide (x = r))).tail else whole := by
  intro l
  induction l with
  | nil => simp [readAfterCgoLoop]
  | cons u rest ih =>
    by_cases hu : r = u
    · subst hu
      simp [readAfterCgoLoop, readAfterCgoLoop_reached, List.dropWhile]
    · have hne : ¬(u = r) := fun he => hu he.symm
      simp only [readAfterCgoLoop, Bool.false_or, if_neg, List.nil_append]
      rw [show decide ((some r : Option Utmp) = some u) = false by simp [hu], ih]
      have hmem : (r ∈ u :: rest) = (r ∈ rest) := by
        simp [List.mem_cons, hu]
      rw [show (List.dropWhile (fun x => !decide (x = r)) (u :: rest))
            = List.dropWhile (fun x => !decide (x = r)) rest by
          simp [List.dropWhile, hne]]
      by_cases hr : r ∈ rest
      · simp [hr, hu]
      · simp [hr, hu]

theorem readAfterLoop_never_matches (whole : List Utmp) (r : Utmp) :
    ∀ l : List Utmp, readAfterLoop whole (some r) l false = whole := by
  intro l
  induction l with
  | nil => simp [readAfterLoop]
  | cons u rest ih => simp [readAfterLoop, deepEqualPtrValue, ih]

theorem readAfterLoop_reached (whole : List Utmp) (last : Option Utmp) :
    ∀ l : List Utmp, readAfterLoop whole last l true = l := by
  intro l
  induction l with
  | nil => simp [readAfterLoop]
  | cons u rest ih => simp [readAfterLoop, ih]

/-- C6 (code bug): in utmp.go the `reflect.DeepEqual` at line 227 compares
the `*Utmp` pointer to a `Utmp` value and is therefore always false, so with
a non-nil last known record `readAfter` never finds the saved record, always
takes the seek-to-beginning path, and returns *every* record of the file —
contrary to the claim, to the function's own doc comment (utmp.go:207-209),
and to the older cgo variant of the file, which compares values and does
return exactly the records strictly after the first structurally-equal
record (resp. the whole file when no record matches). -/
theorem readAfter_always_rereads (content : List Utmp) (r : Utmp) :
    readAfter content (some r) = content ∧
    (r ∈ content →
      readAfterCgo content (some r) =
        (content.dropWhile (fun x => !decide (x = r))).tail) ∧
    (r ∉ content → readAfterCgo content (some r) = content) := by
  refine ⟨?_, ?_, ?_⟩
  · unfold readAfter
    simp only [Option.isNone_some]
    exact readAfterLoop_never_matches content r content
  · intro hmem
    unfold readAfterCgo
    simp only [Option.isNone_some]
    rw [readAfterCgoLoop_searching content r content, if_pos hmem]
  · intro hmem
    unfold readAfterCgo
    simp only [Option.isNone_some]
    rw [readAfterCgoLoop_searching content r content, if_neg hmem]

/-- C6 witness: with file records 1,2,3 and saved record 2, utmp.go returns
all three records again, while the cgo variant resumes after record 2. -/
theorem readAfter_always_rereads_witness :
    readAfter [plainUtmp 1, plainUtmp 2, plainUtmp 3] (some (plainUtmp 2)) =
        [plainUtmp 1, plainUtmp 2, plainUtmp 3] ∧
    readAfterCgo [plainUtmp 1, plainUtmp 2, plainUtmp 3] (some (plainUtmp 2)) =
        ((([plainUtmp 1, plainUtmp 2, plainUtmp 3]).dropWhile
          (fun x => !decide (x = plainUtmp 2))).tail) :=
  ⟨(readAfter_always_rereads [plainUtmp 1, plainUtmp 2, plainUtmp 3]
      (plainUtmp 2)).1,
   (readAfter_always_rereads [plainUtmp 1, plainUtmp 2, plainUtmp 3]
      (plainUtmp 2)).2.1 (by decide)⟩

theorem insertA_ne_nil {κ α : Type} [DecidableEq κ] (m : List (κ × α)) (k : κ)
    (v : α) : insertA m k v ≠ [] := by
  cases m with
  | nil => simp [insertA]
  | cons p t =>
    obtain ⟨k', v'⟩ := p
    by_cases h : k' = k <;> simp [insertA, h]

/-- The `user_logout` record built by the DEAD_PROCESS case
(utmp.go:316-324): the dead-process record enriched with the username, uid,
pid, ip and hostname stored at login time. -/
def logoutEnriched (utmp : Utmp) (saved : LoginRecord) : LoginRecord :=
  { Utmp := utmp
    recordType := .userLogoutRecord
    Timestamp := utmp.UtTv
    TTY := if utmp.UtLine ≠ "~" then utmp.UtLine else ""
    Username := saved.Username
    UID := saved.UID
    PID := saved.PID
    IP := saved.IP
    Hostname := saved.Hostname
    Origin := "" }

/-- C1 counterexample: processing a user-process record and then a
dead-process record on the same terminal line leaves the open-session table
*non-empty* — the DEAD_PROCESS case of `processLoginRecord` never deletes the
entry — contradicting the claim that the entry is removed and the table is
empty afterwards. -/
theorem logout_leaves_session_table_nonempty :
    (processLoginRecord sampleLookup
        (processLoginRecord sampleLookup [] loginUtmp).2 logoutUtmp).2 ≠ [] := by
  decide

/-- C1 (amended): a dead-process record whose terminal line has a matching
open-session entry yields a `user_logout` event enriched with the stored
username/uid/pid/ip/hostname, but the entry is *not* removed from the table;
in particular, after a user-process record followed by a dead-process record
on the same terminal line, the table still holds that line's login entry. -/
theorem dead_process_enriches_but_keeps_entry :
    (∀ (lookupUsername : String → Int) (sessions : SessionTable) (utmp : Utmp)
        (saved : LoginRecord),
      utmp.UtType = DEAD_PROCESS →
      lookupA sessions (if utmp.UtLine ≠ "~" then utmp.UtLine else "") = some saved →
      processLoginRecord lookupUsername sessions utmp =
        (some (logoutEnriched utmp saved), sessions)) ∧
    (∀ (lookupUsername : String → Int) (sessions : SessionTable) (u₁ u₂ : Utmp),
      u₁.UtType = USER_PROCESS → u₂.UtType = DEAD_PROCESS →
      u₂.UtLine = u₁.UtLine → u₁.UtLine ≠ "~" →
      (processLoginRecord lookupUsername
          (processLoginRecord lookupUsername sessions u₁).2 u₂).2 =
        (processLoginRecord lookupUsername sessions u₁).2 ∧
      (processLoginRecord lookupUsername sessions u₁).2 ≠ []) := by
  constructor
  · intro lookupUsername sessions utmp saved htype hfound
    simp only [processLoginRecord, htype, hfound]
    norm_num [RUN_LVL, BOOT_TIME, USER_PROCESS, DEAD_PROCESS, logoutEnriched]
  · intro lookupUsername sessions u₁ u₂ htype1 htype2 hline hnotilde
    have step1 : (processLoginRecord lookupUsername sessions u₁).2 =
        insertA sessions u₁.UtLine
          { Utmp := u₁
            recordType := .userLoginRecord
            Timestamp := u₁.UtTv
            TTY := u₁.UtLine
            Username := u₁.UtUser
            UID := lookupUsername u₁.UtUser
            PID := u₁.UtPid
            IP := some (newIP u₁.UtAddrV6)
            Hostname := u₁.UtHost
            Origin := "" } := by
      simp only [processLoginRecord, htype1]
      norm_num [RUN_LVL, BOOT_TIME, USER_PROCESS]
      simp [hnotilde]
    set rec₁ : LoginRecord :=
      { Utmp := u₁
        recordType := .userLoginRecord
        Timestamp := u₁.UtTv
        TTY := u₁.UtLine
        Username := u₁.UtUser
        UID := lookupUsername u₁.UtUser
        PID := u₁.UtPid
        IP := some (newIP u₁.UtAddrV6)
        Hostname := u₁.UtHost
        Origin := "" } with hrec
    have htty : (if u₂.UtLine ≠ "~" then u₂.UtLine else "") = u₁.UtLine := by
      rw [hline]
      simp [hnotilde]
    have hfound : lookupA (insertA sessions u₁.UtLine rec₁)
        (if u₂.UtLine ≠ "~" then u₂.UtLine else "") = some rec₁ := by
      rw [htty]
      exact lookupA_insertA_self sessions u₁.UtLine rec₁
    constructor
    · rw [step1]
      simp only [processLoginRecord, htype2, hfound]
      norm_num [RUN_LVL, BOOT_TIME, USER_PROCESS, DEAD_PROCESS]
    · rw [step1]
      exact insertA_ne_nil sessions u₁.UtLine rec₁

/-- C1 witness: the concrete alice login/logout pair on pts/0. -/
theorem dead_process_enriches_but_keeps_entry_witness :
    (processLoginRecord sampleLookup
        (processLoginRecord sampleLookup [] loginUtmp).2 logoutUtmp).2 =
      (processLoginRecord sampleLookup [] loginUtmp).2 ∧
    (processLoginRecord sampleLookup [] loginUtmp).2 ≠ [] :=
  dead_process_enriches_but_keeps_entry.2 sampleLookup [] loginUtmp logoutUtmp
    (by decide) (by decide) (by decide) (by decide)

/-- The `boot` record emitted for the "~"/"reboot" pair (terminal is
normalized to the empty string). -/
def bootEvent (utmp : Utmp) : LoginRecord :=
  { Utmp := utmp
    recordType := .bootRecord
    Timestamp := utmp.UtTv
    TTY := ""
    Username := ""
    UID := -1
    PID := -1
    IP := none
    Hostname := ""
    Origin := "" }

/-- The `unknown` record the cgo variant emits for other boot-time records. -/
def unknownEvent (utmp : Utmp) : LoginRecord :=
  { Utmp := utmp
    recordType := .unknownRecord
    Timestamp := utmp.UtTv
    TTY := if utmp.UtLine ≠ "~" then utmp.UtLine else ""
    Username := ""
    UID := -1
    PID := -1
    IP := none
    Hostname := ""
    Origin := "" }

/-- C3 counterexample: a boot-time record whose terminal line is "pts/1"
(not "~") is *dropped* by `processLoginRecord` in utmp.go:300-303
("Ignore unknown record" — `return nil`), not turned into a session event of
kind unknown as the claim states. -/
theorem boot_time_other_dropped :
    (processLoginRecord sampleLookup [] bootOtherUtmp).1 = none := by
  decide

/-- C3 (amended): for a boot-time record, utmp.go emits a boot event and
clears the open-session table when the terminal line is "~" and the user is
"reboot", and otherwise *drops* the record (leaving the table untouched);
only the older cgo variant of the file (src/unnamed/part_000:332-342) emits a
session event of kind unknown in that case. -/
theorem boot_time_cases :
    (∀ (lookupUsername : String → Int) (sessions : SessionTable) (utmp : Utmp),
      utmp.UtType = BOOT_TIME → utmp.UtLine = "~" → utmp.UtUser = "reboot" →
      processLoginRecord lookupUsername sessions utmp = (some (bootEvent utmp), []) ∧
      processLoginRecordCgo lookupUsername sessions utmp = (some (bootEvent utmp), [])) ∧
    (∀ (lookupUsername : String → Int) (sessions : SessionTable) (utmp : Utmp),
      utmp.UtType = BOOT_TIME → ¬(utmp.UtLine = "~" ∧ utmp.UtUser = "reboot") →
      processLoginRecord lookupUsername sessions utmp = (none, sessions) ∧
      processLoginRecordCgo lookupUsername sessions utmp =
        (some (unknownEvent utmp), sessions)) := by
  constructor
  · intro lookupUsername sessions utmp htype hline huser
    constructor
    · simp only [processLoginRecord, htype]
      norm_num [RUN_LVL, BOOT_TIME, bootEvent, hline, huser]
    · simp only [processLoginRecordCgo, htype]
      norm_num [RUN_LVL, BOOT_TIME, bootEvent, hline, huser]
  · intro lookupUsername sessions utmp htype hnot
    constructor
    · simp only [processLoginRecord, htype]
      norm_num [RUN_LVL, BOOT_TIME, hnot]
    · simp only [processLoginRecordCgo, htype]
      norm_num [RUN_LVL, BOOT_TIME, unknownEvent, hnot]

/-- C3 witness: the concrete non-"~" boot record and the "~"/"reboot" pair. -/
theorem boot_time_cases_witness :
    (processLoginRecord sampleLookup [] bootOtherUtmp = (none, []) ∧
      processLoginRecordCgo sampleLookup [] bootOtherUtmp =
        (some (unknownEvent bootOtherUtmp), [])) ∧
    processLoginRecord sampleLookup
        [("pts/0", logoutEnriched logoutUtmp (bootEvent bootOtherUtmp))]
        ⟨2, 0, "~", "reboot", "", 9, (0, 0, 0, 0)⟩ =
      (some (bootEvent ⟨2, 0, "~", "reboot", "", 9, (0, 0, 0, 0)⟩), []) :=
  ⟨boot_time_cases.2 sampleLookup [] bootOtherUtmp (by decide) (by decide),
   (boot_time_cases.1 sampleLookup
      [("pts/0", logoutEnriched logoutUtmp (bootEvent bootOtherUtmp))]
      ⟨2, 0, "~", "reboot", "", 9, (0, 0, 0, 0)⟩ rfl rfl rfl).1⟩

theorem classifyLoop_eq_specWalk :
    ∀ (l : List User) (ch ad : List User) (m : List (Nat × User)),
      classifyLoop l (ch, ad, m) =
        (ch ++ (classifySpecWalk l m).2.1, ad ++ (classifySpecWalk l m).1,
          (classifySpecWalk l m).2.2) := by
  intro l
  induction l with
  | nil => intro ch ad m; simp [classifyLoop, classifySpecWalk]
  | cons u rest ih =>
    intro ch ad m
    by_cases h : (lookupA m u.UID).isSome
    · simp [classifyLoop, classifySpecWalk, h, ih]
    · simp [classifyLoop, classifySpecWalk, h, ih]

theorem classifyUsers_eq_classifySpec (newIn missing : List User) :
    classifyUsers newIn missing = classifySpec newIn missing := by
  unfold classifyUsers classifySpec
  by_cases h : (decide (newIn.length > 0) && decide (missing.length > 0)) = true
  · simp only [h, if_true, classifyLoop_eq_specWalk, List.nil_append]
  · simp [h]

/-- C5: when both sides of the diff are non-empty the classification pairs
each newly-present account with a same-uid newly-absent one as `changed`
(consuming that absent entry), classifies the remaining newly-present as
`added` and the remaining newly-absent as `removed` — the source loop
computes exactly the classification described by the spec — and the concrete
shell-change poll emits exactly one user_changed event and nothing else. -/
theorem changed_added_removed_partition :
    (∀ newInCache missingFromCache : List User,
      classifyUsers newInCache missingFromCache =
        classifySpec newInCache missingFromCache) ∧
    Fetch 5 10 ⟨0, [aliceBash]⟩ [aliceZsh] =
      ⟨[], [userEvent aliceZsh eventTypeEvent eventActionUserChanged],
        ⟨0, [aliceZsh]⟩⟩ :=
  ⟨classifyUsers_eq_classifySpec, by rfl⟩

theorem eraseA_entry_subset {κ α : Type} [DecidableEq κ] (m : List (κ × α))
    (k : κ) : eraseA m k ⊆ m := by
  induction m with
  | nil => simp [eraseA]
  | cons p t ih =>
    obtain ⟨k', v'⟩ := p
    by_cases h : k' = k
    · simp only [eraseA, if_pos h]
      exact List.subset_cons_self _ _
    · simp only [eraseA, if_neg h]
      exact List.cons_subset_cons _ ih

theorem insertA_entry_mem {κ α : Type} [DecidableEq κ] {m : List (κ × α)}
    {k : κ} {v : α} {p : κ × α} (h : p ∈ insertA m k v) : p = (k, v) ∨ p ∈ m := by
  induction m with
  | nil => simpa [insertA] using h
  | cons q t ih =>
    obtain ⟨k', v'⟩ := q
    by_cases hk : k' = k
    · rw [insertA, if_pos hk] at h
      rcases List.mem_cons.1 h with h1 | h2
      · exact Or.inl h1
      · exact Or.inr (List.mem_cons.2 (Or.inr h2))
    · rw [insertA, if_neg hk] at h
      rcases List.mem_cons.1 h with h1 | h2
      · exact Or.inr (List.mem_cons.2 (Or.inl h1))
      · rcases ih h2 with h3 | h4
        · exact Or.inl h3
        · exact Or.inr (List.mem_cons.2 (Or.inr h4))

/-- The uid index built from `missingFromCache` (user.go:314-317). -/
def uidIndex (missing : List User) : List (Nat × User) :=
  missing.foldl (fun m mu => insertA m mu.UID mu) []

theorem nodupKeysA_uidIndex_aux :
    ∀ (l : List User) (m : List (Nat × User)), NodupKeysA m →
      NodupKeysA (l.foldl (fun m mu => insertA m mu.UID mu) m) := by
  intro l
  induction l with
  | nil => intro m hm; simpa using hm
  | cons u rest ih =>
    intro m hm
    exact ih _ (nodupKeysA_insertA u.UID u hm)

theorem nodupKeysA_uidIndex (missing : List User) : NodupKeysA (uidIndex missing) :=
  nodupKeysA_uidIndex_aux missing [] (by simp [NodupKeysA, keysA])

theorem wf_uidIndex_aux :
    ∀ (l : List User) (m : List (Nat × User)), (∀ p ∈ m, (p.2).UID = p.1) →
      ∀ p ∈ l.foldl (fun m mu => insertA m mu.UID mu) m, (p.2).UID = p.1 := by
  intro l
  induction l with
  | nil => intro m hm; simpa using hm
  | cons u rest ih =>
    intro m hm
    apply ih
    intro p hp
    rcases insertA_entry_mem hp with h1 | h2
    · rw [h1]
    · exact hm p h2

theorem wf_uidIndex (missing : List User) :
    ∀ p ∈ uidIndex missing, (p.2).UID = p.1 :=
  wf_uidIndex_aux missing [] (by simp)

theorem specWalk_keys_subset :
    ∀ (l : List User) (m : List (Nat × User)),
      keysA (classifySpecWalk l m).2.2 ⊆ keysA m := by
  intro l
  induction l with
  | nil => intro m; simp [classifySpecWalk]
  | cons u rest ih =>
    intro m
    by_cases h : (lookupA m u.UID).isSome
    · simp only [classifySpecWalk, h, if_true]
      exact (ih (eraseA m u.UID)).trans (keysA_eraseA_subset m u.UID)
    · simp only [classifySpecWalk, h, if_false]
      exact ih m

theorem specWalk_nodupKeys :
    ∀ (l : List User) (m : List (Nat × User)), NodupKeysA m →
      NodupKeysA (classifySpecWalk l m).2.2 := by
  intro l
  induction l with
  | nil => intro m hm; simpa [classifySpecWalk] using hm
  | cons u rest ih =>
    intro m hm
    by_cases h : (lookupA m u.UID).isSome
    · simp only [classifySpecWalk, h, if_true]
      exact ih _ (nodupKeysA_eraseA u.UID hm)
    · simp only [classifySpecWalk, h, if_false]
      exact ih m hm

theorem specWalk_wf :
    ∀ (l : List User) (m : List (Nat × User)), (∀ p ∈ m, (p.2).UID = p.1) →
      ∀ p ∈ (classifySpecWalk l m).2.2, (p.2).UID = p.1 := by
  intro l
  induction l with
  | nil => intro m hm; simpa [classifySpecWalk] using hm
  | cons u rest ih =>
    intro m hm
    by_cases h : (lookupA m u.UID).isSome
    · simp only [classifySpecWalk, h, if_true]
      exact ih _ (fun p hp => hm p (eraseA_entry_subset m u.UID hp))
    · simp only [classifySpecWalk, h, if_false]
      exact ih m hm

theorem specWalk_mem_of_added :
    ∀ (l : List User) (m : List (Nat × User)) (u : User),
      u ∈ (classifySpecWalk l m).1 → u ∈ l := by
  intro l
  induction l with
  | nil => intro m u hu; simp [classifySpecWalk] at hu
  | cons v rest ih =>
    intro m u hu
    by_cases h : (lookupA m v.UID).isSome
    · simp only [classifySpecWalk, h, if_true] at hu
      exact List.mem_cons.2 (Or.inr (ih _ u hu))
    · simp only [classifySpecWalk, h, if_false] at hu
      rcases List.mem_cons.1 hu with h1 | h2
      · exact List.mem_cons.2 (Or.inl h1)
      · exact List.mem_cons.2 (Or.inr (ih m u h2))

theorem specWalk_mem_of_changed :
    ∀ (l : List User) (m : List (Nat × User)) (u : User),
      u ∈ (classifySpecWalk l m).2.1 → u ∈ l := by
  intro l
  induction l with
  | nil => intro m u hu; simp [classifySpecWalk] at hu
  | cons v rest ih =>
    intro m u hu
    by_cases h : (lookupA m v.UID).isSome
    · simp only [classifySpecWalk, h, if_true] at hu
      rcases List.mem_cons.1 hu with h1 | h2
      · exact List.mem_cons.2 (Or.inl h1)
      · exact List.mem_cons.2 (Or.inr (ih _ u h2))
    · simp only [classifySpecWalk, h, if_false] at hu
      exact List.mem_cons.2 (Or.inr (ih m u hu))

theorem specWalk_added_not_in_keys :
    ∀ (l : List User) (m : List (Nat × User)),
      ∀ u ∈ (classifySpecWalk l m).1, u.UID ∉ keysA (classifySpecWalk l m).2.2 := by
  intro l
  induction l with
  | nil => intro m u hu; simp [classifySpecWalk] at hu
  | cons v rest ih =>
    intro m u hu
    by_cases h : (lookupA m v.UID).isSome
    · simp only [classifySpecWalk, h, if_true] at hu ⊢
      exact ih _ u hu
    · simp only [classifySpecWalk, h, if_false] at hu ⊢
      rcases List.mem_cons.1 hu with h1 | h2
      · subst h1
        intro hk
        have hnone : lookupA m u.UID = none := Option.not_isSome_iff_eq_none.1 h
        exact not_mem_keysA_of_lookupA_eq_none hnone
          (specWalk_keys_subset rest m hk)
      · exact ih m u h2

theorem specWalk_changed_not_in_keys :
    ∀ (l : List User) (m : List (Nat × User)), NodupKeysA m →
      ∀ u ∈ (classifySpecWalk l m).2.1, u.UID ∉ keysA (classifySpecWalk l m).2.2 := by
  intro l
  induction l with
  | nil => intro m hm u hu; simp [classifySpecWalk] at hu
  | cons v rest ih =>
    intro m hm u hu
    by_cases h : (lookupA m v.UID).isSome
    · simp only [classifySpecWalk, h, if_true] at hu ⊢
      rcases List.mem_cons.1 hu with h1 | h2
      · subst h1
        intro hk
        exact not_mem_keysA_eraseA u.UID hm (specWalk_keys_subset rest _ hk)
      · exact ih _ (nodupKeysA_eraseA v.UID hm) u h2
    · simp only [classifySpecWalk, h, if_false] at hu ⊢
      exact ih m hm u hu

theorem specWalk_added_changed_uid_disjoint :
    ∀ (l : List User) (m : List (Nat × User)), (l.map User.UID).Nodup →
      ∀ x : Nat, x ∈ (classifySpecWalk l m).1.map User.UID →
        x ∉ (classifySpecWalk l m).2.1.map User.UID := by
  intro l
  induction l with
  | nil => intro m _ x hx; simp [classifySpecWalk] at hx
  | cons v rest ih =>
    intro m hnd x hx hx'
    have hnd' : (rest.map User.UID).Nodup := (List.nodup_cons.1 hnd).2
    have hvnot : v.UID ∉ rest.map User.UID := (List.nodup_cons.1 hnd).1
    by_cases h : (lookupA m v.UID).isSome
    · simp only [classifySpecWalk, h, if_true] at hx hx'
      rcases List.mem_map.1 hx' with ⟨u, hu, hux⟩
      rcases List.mem_cons.1 hu with h1 | h2
      · subst h1
        rcases List.mem_map.1 hx with ⟨w, hw, hwx⟩
        apply hvnot
        exact List.mem_map.2
          ⟨w, specWalk_mem_of_added rest _ w hw, by rw [hwx, ← hux]⟩
      · exact ih (eraseA m v.UID) hnd' x hx
          (List.mem_map.2 ⟨u, h2, hux⟩)
    · simp only [classifySpecWalk, h, if_false] at hx hx'
      rcases List.mem_map.1 hx with ⟨u, hu, hux⟩
      rcases List.mem_cons.1 hu with h1 | h2
      · subst h1
        rcases List.mem_map.1 hx' with ⟨w, hw, hwx⟩
        apply hvnot
        exact List.mem_map.2
          ⟨w, specWalk_mem_of_changed rest m w hw, by rw [hwx, ← hux]⟩
      · exact ih m hnd' x (List.mem_map.2 ⟨u, h2, hux⟩) hx'

/-- C4 counterexample: with prior snapshot {c(uid 1000)} and new accounts
{a(uid 1000), b(uid 1000)} sharing a uid, `compareUsers` classifies a as
changed and b as added — uid 1000 occurs in both the added and the changed
multisets, so the three lists are not pairwise disjoint by uid. -/
theorem uid_partition_counterexample :
    1000 ∈ (compareUsers [dupC] [dupA, dupB]).1.map User.UID ∧
    1000 ∈ (compareUsers [dupC] [dupA, dupB]).2.2.map User.UID := by
  decide

/-- C4 (amended): whenever the input user list has pairwise-distinct uids,
the added, removed and changed lists returned by `compareUsers` are pairwise
disjoint by uid; with duplicated uids in the input the partition can fail
(the counterexample). -/
theorem compareUsers_uid_partition (cacheUsers users : List User)
    (h : (users.map User.UID).Nodup) :
    List.Disjoint ((compareUsers cacheUsers users).1.map User.UID)
      ((compareUsers cacheUsers users).2.1.map User.UID) ∧
    List.Disjoint ((compareUsers cacheUsers users).1.map User.UID)
      ((compareUsers cacheUsers users).2.2.map User.UID) ∧
    List.Disjoint ((compareUsers cacheUsers users).2.1.map User.UID)
      ((compareUsers cacheUsers users).2.2.map User.UID) := by
  have hrw : compareUsers cacheUsers users =
      classifySpec (diffAndUpdateCache cacheUsers users).1
        (diffAndUpdateCache cacheUsers users).2 := by
    unfold compareUsers
    exact classifyUsers_eq_classifySpec _ _
  rw [hrw]
  set n := (diffAndUpdateCache cacheUsers users).1 with hn
  set mi := (diffAndUpdateCache cacheUsers users).2 with hmi
  have hnodup_n : (n.map User.UID).Nodup := by
    have hsub : n.Sublist users := by
      rw [hn]
      unfold diffAndUpdateCache
      exact List.filter_sublist users
    exact h.sublist (hsub.map User.UID)
  unfold classifySpec
  by_cases hcond : (decide (n.length > 0) && decide (mi.length > 0)) = true
  · simp only [hcond, if_true]
    have hidx : List.foldl (fun m mu => insertA m mu.UID mu) [] mi = uidIndex mi := rfl
    rw [hidx]
    have hwf : ∀ p ∈ (classifySpecWalk n (uidIndex mi)).2.2, (p.2).UID = p.1 :=
      specWalk_wf n (uidIndex mi) (wf_uidIndex mi)
    have hremoved :
        ((classifySpecWalk n (uidIndex mi)).2.2.map (·.2)).map User.UID =
          keysA (classifySpecWalk n (uidIndex mi)).2.2 := by
      rw [List.map_map]
      exact List.map_congr_left hwf
    refine ⟨?_, ?_, ?_⟩
    · intro x hx hx'
      rcases List.mem_map.1 hx with ⟨u, hu, hux⟩
      rw [hremoved] at hx'
      exact specWalk_added_not_in_keys n (uidIndex mi) u hu (hux ▸ hx')
    · intro x hx hx'
      exact specWalk_added_changed_uid_disjoint n (uidIndex mi) hnodup_n x hx hx'
    · intro x hx hx'
      rcases List.mem_map.1 hx' with ⟨u, hu, hux⟩
      rw [hremoved] at hx
      exact specWalk_changed_not_in_keys n (uidIndex mi)
        (nodupKeysA_uidIndex mi) u hu (hux ▸ hx)
  · simp only [hcond, if_false]
    have hemp : n = [] ∨ mi = [] := by
      by_contra hno
      push_neg at hno
      apply hcond
      simp [List.length_pos, hno.1, hno.2]
    rcases hemp with he | he
    · refine ⟨?_, ?_, ?_⟩ <;> simp [he]
    · refine ⟨?_, ?_, ?_⟩ <;> simp [he]

/-- C4 witness: a single-account shell change has pairwise uid-disjoint
added/removed/changed lists. -/
theorem compareUsers_uid_partition_witness :
    List.Disjoint ((compareUsers [aliceBash] [aliceZsh]).1.map User.UID)
      ((compareUsers [aliceBash] [aliceZsh]).2.1.map User.UID) ∧
    List.Disjoint ((compareUsers [aliceBash] [aliceZsh]).1.map User.UID)
      ((compareUsers [aliceBash] [aliceZsh]).2.2.map User.UID) ∧
    List.Disjoint ((compareUsers [aliceBash] [aliceZsh]).2.1.map User.UID)
      ((compareUsers [aliceBash] [aliceZsh]).2.2.map User.UID) :=
  compareUsers_uid_partition [aliceBash] [aliceZsh] (by decide)

theorem runPaths_append (lookupUsername : String → Int) :
    ∀ (xs ys : List PathObs) (a : ReadAcc),
      runPaths lookupUsername (xs ++ ys) a =
        match runPaths lookupUsername xs a with
        | .ok a' => runPaths lookupUsername ys a'
        | .error e => .error e := by
  intro xs
  induction xs with
  | nil => intro ys a; simp [runPaths]
  | cons f fs ih =>
    intro ys a
    simp only [List.cons_append, runPaths]
    cases processOnePath lookupUsername a f with
    | ok a' => exact ih ys a'
    | error e => rfl

theorem applyPends_lookup_of_filter_nil (i : Nat) :
    ∀ (l : List PendingUpdate) (frs : FileRecordTable),
      l.filter (fun q => decide (q.inode = i)) = [] →
      lookupA (applyPends frs l) i = lookupA frs i := by
  intro l
  induction l with
  | nil => intro frs _; rfl
  | cons q t ih =>
    intro frs hfil
    rw [List.filter_cons] at hfil
    by_cases hq : q.inode = i
    · simp [hq] at hfil
    · simp only [decide_eq_true_eq, hq, if_false] at hfil
      simp only [applyPends]
      rw [ih _ hfil]
      unfold updateFileRecord
      exact lookupA_insertA_other frs q.inode i _ hq

theorem applyPends_lookup_of_filter_single (i : Nat) (p : PendingUpdate) :
    ∀ (l : List PendingUpdate) (frs : FileRecordTable),
      l.filter (fun q => decide (q.inode = i)) = [p] →
      lookupA (applyPends frs l) i =
        some ⟨i, p.size, newLastUtmp p.recs (lookupA frs i)⟩ := by
  intro l
  induction l with
  | nil => intro frs hfil; simp at hfil
  | cons q t ih =>
    intro frs hfil
    rw [List.filter_cons] at hfil
    by_cases hq : q.inode = i
    · simp only [decide_eq_true_eq, hq, if_true] at hfil
      have hqp : q = p := (List.cons_eq_cons.1 hfil).1
      have htail : t.filter (fun q => decide (q.inode = i)) = [] :=
        (List.cons_eq_cons.1 hfil).2
      subst hqp
      simp only [applyPends]
      rw [applyPends_lookup_of_filter_nil i t _ htail]
      unfold updateFileRecord
      rw [hq]
      exact lookupA_insertA_self frs i _
    · simp only [decide_eq_true_eq, hq, if_false] at hfil
      simp only [applyPends]
      rw [ih _ hfil]
      unfold updateFileRecord
      rw [lookupA_insertA_other frs q.inode i _ hq]

theorem lookupA_deleteOldRecords (inodes : List Nat) (i : Nat) (h : i ∈ inodes) :
    ∀ frs : FileRecordTable,
      lookupA (deleteOldRecords frs inodes) i = lookupA frs i := by
  intro frs
  induction frs with
  | nil => rfl
  | cons q t ih =>
    obtain ⟨k, v⟩ := q
    unfold deleteOldRecords at ih ⊢
    rw [List.filter_cons]
    by_cases hk : k = i
    · subst hk
      have hc : (inodes.contains k) = true := by simpa using h
      simp only [hc, if_true]
      simp [lookupA, ih]
    · by_cases hc : (inodes.contains k) = true
      · simp only [hc, if_true]
        simp only [lookupA, if_neg hk]
        exact ih
      · simp only [Bool.not_eq_true] at hc
        simp only [hc, Bool.false_eq_true, if_false]
        rw [ih]
        simp only [lookupA, if_neg hk]

theorem mem_deleteOldRecords (frs : FileRecordTable) (inodes : List Nat)
    (p : Nat × FileRecord) (h : p ∈ deleteOldRecords frs inodes) : p.1 ∈ inodes := by
  unfold deleteOldRecords at h
  have := (List.mem_filter.1 h).2
  simpa using this

theorem finishRead_lookup_single (a : ReadAcc) (i : Nat) (p : PendingUpdate)
    (hfil : a.pending.filter (fun q => decide (q.inode = i)) = [p])
    (hin : i ∈ a.inodes) :
    lookupA (finishRead a).fileRecords i =
      some ⟨i, p.size, newLastUtmp p.recs (lookupA a.st.fileRecords i)⟩ := by
  unfold finishRead
  rw [lookupA_deleteOldRecords a.inodes i hin]
  apply applyPends_lookup_of_filter_single
  rw [List.filter_reverse, hfil]
  rfl

theorem finishRead_lookup_none (a : ReadAcc) (i : Nat)
    (hfil : a.pending.filter (fun q => decide (q.inode = i)) = [])
    (hin : i ∈ a.inodes) :
    lookupA (finishRead a).fileRecords i = lookupA a.st.fileRecords i := by
  unfold finishRead
  rw [lookupA_deleteOldRecords a.inodes i hin]
  apply applyPends_lookup_of_filter_nil
  rw [List.filter_reverse, hfil]
  rfl

theorem processRecords_origin (lookupUsername : String → Int) (path : String) :
    ∀ (recs : List Utmp) (sessions : SessionTable),
      ∀ e ∈ (processRecords lookupUsername sessions path recs).1, e.Origin = path := by
  intro recs
  induction recs with
  | nil => intro sessions e he; simp [processRecords] at he
  | cons u rest ih =>
    intro sessions e he
    simp only [processRecords] at he
    rcases List.mem_append.1 he with h1 | h2
    · cases hr : (processLoginRecord lookupUsername sessions u).1 with
      | none => rw [hr] at h1; simp at h1
      | some lr =>
        rw [hr] at h1
        simp only [List.mem_singleton] at h1
        rw [h1]
    · exact ih _ e h2

/-- One step of the `ReadNew` loop preserves everything pertaining to an
inode it does not observe: the stored cursor, the pending updates for that
inode, membership in the observed-inode list; and any event it appends
carries this path as origin. -/
theorem processOnePath_preserve (lookupUsername : String → Int) (i : Nat)
    (f : PathObs) (a : ReadAcc) (hf : ∀ j s, f.stat = .found j s → j ≠ i) :
    lookupA (accOf (processOnePath lookupUsername a f)).st.fileRecords i =
        lookupA a.st.fileRecords i ∧
    (accOf (processOnePath lookupUsername a f)).pending.filter
        (fun q => decide (q.inode = i)) =
      a.pending.filter (fun q => decide (q.inode = i)) ∧
    (i ∈ a.inodes → i ∈ (accOf (processOnePath lookupUsername a f)).inodes) ∧
    (∀ e ∈ (accOf (processOnePath lookupUsername a f)).events,
      e ∈ a.events ∨ e.Origin = f.path) := by
  cases hstat : f.stat with
  | notExist =>
    have hacc : accOf (processOnePath lookupUsername a f) = a := by
      simp [processOnePath, hstat, accOf]
    rw [hacc]
    exact ⟨rfl, rfl, fun h => h, fun e he => Or.inl he⟩
  | statErr =>
    have hacc : accOf (processOnePath lookupUsername a f) = a := by
      simp [processOnePath, hstat, accOf]
    rw [hacc]
    exact ⟨rfl, rfl, fun h => h, fun e he => Or.inl he⟩
  | found j s =>
    have hji : j ≠ i := hf j s hstat
    simp only [processOnePath, hstat]
    split
    · constructor
      · simp only [accOf]
        unfold updateFileRecord
        exact lookupA_insertA_other _ j i _ hji
      · refine ⟨?_, ?_, ?_⟩
        · simp [accOf]
        · intro h
          simp only [accOf]
          exact List.mem_append.2 (Or.inl h)
        · intro e he
          simp only [accOf] at he
          exact Or.inl he
    · split
      · split
        · refine ⟨rfl, ?_, fun h => List.mem_append.2 (Or.inl h), fun e he => Or.inl he⟩
          simp only [accOf, List.filter_append]
          simp [hji]
        · split
          · refine ⟨rfl, ?_, fun h => List.mem_append.2 (Or.inl h), fun e he => Or.inl he⟩
            simp only [accOf, List.filter_append]
            simp [hji]
          · split
            · refine ⟨rfl, ?_, fun h => List.mem_append.2 (Or.inl h), fun e he => Or.inl he⟩
              simp only [accOf, List.filter_append]
              simp [hji]
            · refine ⟨rfl, ?_, fun h => List.mem_append.2 (Or.inl h), ?_⟩
              · simp only [accOf, List.filter_append]
                simp [hji]
              · intro e he
                simp only [accOf] at he
                rcases List.mem_append.1 he with h1 | h2
                · exact Or.inl h1
                · exact Or.inr (processRecords_origin lookupUsername f.path _ _ e h2)
      · exact ⟨rfl, rfl, fun h => List.mem_append.2 (Or.inl h), fun e he => Or.inl he⟩

theorem runPaths_preserve (lookupUsername : String → Int) (i : Nat) :
    ∀ (fs : List PathObs) (a : ReadAcc), i ∉ observedInodes fs →
      lookupA (accOf (runPaths lookupUsername fs a)).st.fileRecords i =
          lookupA a.st.fileRecords i ∧
      (accOf (runPaths lookupUsername fs a)).pending.filter
          (fun q => decide (q.inode = i)) =
        a.pending.filter (fun q => decide (q.inode = i)) ∧
      (i ∈ a.inodes → i ∈ (accOf (runPaths lookupUsername fs a)).inodes) := by
  intro fs
  induction fs with
  | nil =>
    intro a _
    exact ⟨rfl, rfl, fun h => h⟩
  | cons f rest ih =>
    intro a hobs
    have hf : ∀ j s, f.stat = .found j s → j ≠ i := by
      intro j s hstat hji
      apply hobs
      unfold observedInodes
      rw [List.filterMap_cons, hstat, hji]
      exact List.mem_cons.2 (Or.inl rfl)
    have hrest : i ∉ observedInodes rest := by
      intro hmem
      apply hobs
      unfold observedInodes at hmem ⊢
      rw [List.filterMap_cons]
      cases f.stat <;> simp [hmem]
    have hstep := processOnePath_preserve lookupUsername i f a hf
    simp only [runPaths]
    cases hres : processOnePath lookupUsername a f with
    | ok a' =>
      rw [hres] at hstep
      simp only [accOf] at hstep
      have hrec := ih a' hrest
      exact ⟨hrec.1.trans hstep.1, (hrec.2.1).trans hstep.2.1,
        fun h => hrec.2.2 (hstep.2.2.1 h)⟩
    | error e =>
      rw [hres] at hstep
      obtain ⟨msg, a'⟩ := e
      simp only [accOf] at hstep ⊢
      exact ⟨hstep.1, hstep.2.1, hstep.2.2.1⟩

theorem processOnePath_events (lookupUsername : String → Int) (f : PathObs)
    (a : ReadAcc) :
    ∀ e ∈ (accOf (processOnePath lookupUsername a f)).events,
      e ∈ a.events ∨ e.Origin = f.path := by
  cases hstat : f.stat with
  | notExist =>
    have hacc : accOf (processOnePath lookupUsername a f) = a := by
      simp [processOnePath, hstat, accOf]
    rw [hacc]
    exact fun e he => Or.inl he
  | statErr =>
    have hacc : accOf (processOnePath lookupUsername a f) = a := by
      simp [processOnePath, hstat, accOf]
    rw [hacc]
    exact fun e he => Or.inl he
  | found j s =>
    simp only [processOnePath, hstat]
    split
    · intro e he
      simp only [accOf] at he
      exact Or.inl he
    · split
      · split
        · intro e he
          simp only [accOf] at he
          exact Or.inl he
        · split
          · intro e he
            simp only [accOf] at he
            exact Or.inl he
          · split
            · intro e he
              simp only [accOf] at he
              exact Or.inl he
            · intro e he
              simp only [accOf] at he
              rcases List.mem_append.1 he with h1 | h2
              · exact Or.inl h1
              · exact Or.inr (processRecords_origin lookupUsername f.path _ _ e h2)
      · intro e he
        simp only [accOf] at he
        exact Or.inl he

theorem runPaths_events (lookupUsername : String → Int) :
    ∀ (fs : List PathObs) (a : ReadAcc),
      ∀ e ∈ (accOf (runPaths lookupUsername fs a)).events,
        e ∈ a.events ∨ e.Origin ∈ fs.map (·.path) := by
  intro fs
  induction fs with
  | nil => intro a e he; exact Or.inl he
  | cons f rest ih =>
    intro a e he
    simp only [runPaths] at he
    cases hres : processOnePath lookupUsername a f with
    | ok a' =>
      rw [hres] at he
      rcases ih a' e he with h1 | h2
      · rcases processOnePath_events lookupUsername f a e
            (by rw [hres]; exact h1) with ha | hb
        · exact Or.inl ha
        · exact Or.inr (by simp [hb])
      · exact Or.inr (by simp [h2])
    | error e' =>
      rw [hres] at he
      rcases processOnePath_events lookupUsername f a e
          (by rw [hres]; exact he) with ha | hb
      · exact Or.inl ha
      · exact Or.inr (by simp [hb])

/-- When the read condition of utmp.go:130 holds for a file, the loop body
registers exactly one deferred cursor update for its inode (with the records
`readAfter` produced, or none on an open/read failure), leaves the cursor
table itself untouched, and marks the inode as observed — on every exit
path, error or not. -/
theorem processOnePath_read_start (lookupUsername : String → Int) (a : ReadAcc)
    (f : PathObs) (inode : Nat) (newSize : Int)
    (h2 : f.stat = .found inode newSize)
    (h3 : readTriggered a.st.fileRecords inode newSize = true) :
    (accOf (processOnePath lookupUsername a f)).st.fileRecords =
        a.st.fileRecords ∧
    (accOf (processOnePath lookupUsername a f)).pending =
      a.pending ++ [⟨inode, newSize, readRecsOf a.st.fileRecords f inode newSize⟩] ∧
    inode ∈ (accOf (processOnePath lookupUsername a f)).inodes := by
  simp only [readTriggered] at h3
  rw [Bool.and_eq_true] at h3
  obtain ⟨h3a, h3b⟩ := h3
  rw [Bool.not_eq_true'] at h3a
  simp only [processOnePath, h2]
  rw [h3a]
  simp only [Bool.false_eq_true, if_false]
  rw [h3b]
  simp only [if_true]
  split
  · refine ⟨rfl, rfl, ?_⟩
    simp [accOf]
  · split
    · refine ⟨rfl, rfl, ?_⟩
      simp [accOf]
    · split
      · refine ⟨rfl, rfl, ?_⟩
        simp [accOf]
      · refine ⟨rfl, rfl, ?_⟩
        simp [accOf]

/-- C7: whenever the `ReadNew` loop reaches a path and its read condition
holds (the file is started), the cursor for its inode ends up at the new
file size no matter how the rest of the poll goes — open failure, read
failure, the no-new-records error, or an error on a later file — and the
cursor's last record is the last record parsed from this read when there was
one, and otherwise is carried over from the previous cursor of that inode. -/
theorem cursor_updated_despite_failures (lookupUsername : String → Int)
    (st : ReaderState) (paths₁ : List PathObs) (f : PathObs)
    (paths₂ : List PathObs) (inode : Nat) (newSize : Int) (a₁ : ReadAcc)
    (h1 : runPaths lookupUsername paths₁ (initAcc st) = .ok a₁)
    (h2 : f.stat = .found inode newSize)
    (h3 : readTriggered a₁.st.fileRecords inode newSize = true)
    (h4 : a₁.pending.filter (fun q => decide (q.inode = inode)) = [])
    (h5 : inode ∉ observedInodes paths₂) :
    lookupA (ReadNew lookupUsername true (paths₁ ++ f :: paths₂) st).state.fileRecords
        inode =
      some ⟨inode, newSize,
        newLastUtmp (readRecsOf a₁.st.fileRecords f inode newSize)
          (lookupA a₁.st.fileRecords inode)⟩ := by
  have hstate : (ReadNew lookupUsername true (paths₁ ++ f :: paths₂) st).state =
      finishRead (accOf (runPaths lookupUsername (paths₁ ++ f :: paths₂) (initAcc st))) := by
    unfold ReadNew
    simp only [Bool.not_true, Bool.false_eq_true, if_false]
    cases runPaths lookupUsername (paths₁ ++ f :: paths₂) (initAcc st) with
    | ok a => rfl
    | error e => obtain ⟨msg, a⟩ := e; rfl
  rw [hstate, runPaths_append, h1]
  have hstep := processOnePath_read_start lookupUsername a₁ f inode newSize h2 h3
  set pend : PendingUpdate :=
    ⟨inode, newSize, readRecsOf a₁.st.fileRecords f inode newSize⟩ with hpend
  simp only [runPaths]
  cases hres : processOnePath lookupUsername a₁ f with
  | error e =>
    obtain ⟨msg, a₂⟩ := e
    rw [hres] at hstep
    simp only [accOf] at hstep ⊢
    have hfil : a₂.pending.filter (fun q => decide (q.inode = inode)) = [pend] := by
      rw [hstep.2.1, List.filter_append, h4]
      simp [hpend]
    rw [finishRead_lookup_single a₂ inode pend hfil hstep.2.2, hstep.1]
  | ok a₂ =>
    rw [hres] at hstep
    simp only [accOf] at hstep
    have hrun := runPaths_preserve lookupUsername inode paths₂ a₂ h5
    set aF := accOf (runPaths lookupUsername paths₂ a₂) with haF
    have hfil : aF.pending.filter (fun q => decide (q.inode = inode)) = [pend] := by
      rw [hrun.2.1, hstep.2.1, List.filter_append, h4]
      simp [hpend]
    rw [finishRead_lookup_single aF inode pend hfil (hrun.2.2 hstep.2.2),
      hrun.1, hstep.1]

/-- C7 witness: inode 7 grew from 100 to 200 bytes but opening it fails; the
cursor is still advanced to size 200 with the old last record carried over. -/
theorem cursor_updated_despite_failures_witness :
    lookupA (ReadNew sampleLookup true ([] ++ growOpenFail :: []) sampleReaderState).state.fileRecords
        7 =
      some ⟨7, 200,
        newLastUtmp (readRecsOf (initAcc sampleReaderState).st.fileRecords growOpenFail 7 200)
          (lookupA (initAcc sampleReaderState).st.fileRecords 7)⟩ :=
  cursor_updated_despite_failures sampleLookup sampleReaderState [] growOpenFail []
    7 200 (initAcc sampleReaderState) rfl rfl (by decide) rfl (by decide)

/-- C8: a previously unseen inode observed with size 0 gets a cursor
{size 0, zero-value last record} stored without reading the file, no event of
this poll originates from that path, and the poll continues over the
remaining paths. -/
theorem empty_new_file_cursor_only (lookupUsername : String → Int)
    (st : ReaderState) (paths₁ : List PathObs) (f : PathObs)
    (paths₂ : List PathObs) (inode : Nat) (a₁ : ReadAcc)
    (h1 : runPaths lookupUsername paths₁ (initAcc st) = .ok a₁)
    (h2 : f.stat = .found inode 0)
    (h3 : lookupA a₁.st.fileRecords inode = none)
    (h4 : a₁.pending.filter (fun q => decide (q.inode = inode)) = [])
    (h5 : inode ∉ observedInodes paths₂) :
    lookupA (ReadNew lookupUsername true (paths₁ ++ f :: paths₂) st).state.fileRecords
        inode = some ⟨inode, 0, default⟩ ∧
    (∀ evs, (ReadNew lookupUsername true (paths₁ ++ f :: paths₂) st).result = .ok evs →
      ∀ e ∈ evs, e.Origin ∈ (paths₁ ++ paths₂).map (·.path)) := by
  have hone : processOnePath lookupUsername a₁ f = .ok
      { a₁ with
        st := { a₁.st with
          fileRecords := updateFileRecord a₁.st.fileRecords inode 0 [] }
        inodes := a₁.inodes ++ [inode] } := by
    simp [processOnePath, h2, h3]
  set a₂ : ReadAcc :=
    { a₁ with
      st := { a₁.st with
        fileRecords := updateFileRecord a₁.st.fileRecords inode 0 [] }
      inodes := a₁.inodes ++ [inode] } with ha₂
  have hlook₂ : lookupA a₂.st.fileRecords inode = some ⟨inode, 0, default⟩ := by
    show lookupA (updateFileRecord a₁.st.fileRecords inode 0 []) inode = _
    unfold updateFileRecord
    rw [lookupA_insertA_self]
    rw [h3]
    rfl
  have hfull : runPaths lookupUsername (paths₁ ++ f :: paths₂) (initAcc st) =
      runPaths lookupUsername paths₂ a₂ := by
    rw [runPaths_append, h1]
    simp only [runPaths, hone]
  constructor
  · have hstate : (ReadNew lookupUsername true (paths₁ ++ f :: paths₂) st).state =
        finishRead (accOf (runPaths lookupUsername (paths₁ ++ f :: paths₂) (initAcc st))) := by
      unfold ReadNew
      simp only [Bool.not_true, Bool.false_eq_true, if_false]
      cases runPaths lookupUsername (paths₁ ++ f :: paths₂) (initAcc st) with
      | ok a => rfl
      | error e => obtain ⟨msg, a⟩ := e; rfl
    rw [hstate, hfull]
    have hrun := runPaths_preserve lookupUsername inode paths₂ a₂ h5
    have hfil : (accOf (runPaths lookupUsername paths₂ a₂)).pending.filter
        (fun q => decide (q.inode = inode)) = [] := by
      rw [hrun.2.1]
      exact h4
    rw [finishRead_lookup_none _ inode hfil
        (hrun.2.2 (by simp [ha₂])), hrun.1, hlook₂]
  · intro evs hres e he
    have hok : ∃ aT, runPaths lookupUsername (paths₁ ++ f :: paths₂) (initAcc st) =
        .ok aT ∧ evs = aT.events := by
      unfold ReadNew at hres
      simp only [Bool.not_true, Bool.false_eq_true, if_false] at hres
      cases hT : runPaths lookupUsername (paths₁ ++ f :: paths₂) (initAcc st) with
      | ok a =>
        rw [hT] at hres
        simp only [ReadNewOut.mk.injEq] at hres
        exact ⟨a, rfl, (Except.ok.inj hres).symm⟩
      | error eT =>
        obtain ⟨msg, aT⟩ := eT
        rw [hT] at hres
        simp at hres
    obtain ⟨aT, hT, hevs⟩ := hok
    rw [hfull] at hT
    subst hevs
    have hev₂ := runPaths_events lookupUsername paths₂ a₂ e (by rw [hT]; exact he)
    rcases hev₂ with h1e | h2e
    · have hev₁ := runPaths_events lookupUsername paths₁ (initAcc st) e
        (by rw [h1]; exact h1e)
      rcases hev₁ with h3e | h4e
      · simp [initAcc] at h3e
      · simp only [List.map_append, List.mem_append]
        exact Or.inl h4e
    · simp only [List.map_append, List.mem_append]
      exact Or.inr h2e

/-- C8 witness: the empty new file with inode 9 next to the known inode 7. -/
theorem empty_new_file_cursor_only_witness :
    lookupA (ReadNew sampleLookup true ([] ++ emptyNewFile :: []) sampleReaderState).state.fileRecords
        9 = some ⟨9, 0, default⟩ ∧
    (∀ evs, (ReadNew sampleLookup true ([] ++ emptyNewFile :: []) sampleReaderState).result = .ok evs →
      ∀ e ∈ evs, e.Origin ∈ (([] ++ []) : List PathObs).map (·.path)) :=
  empty_new_file_cursor_only sampleLookup sampleReaderState [] emptyNewFile []
    9 (initAcc sampleReaderState) rfl rfl (by decide) rfl (by decide)

theorem processOnePath_inodes_ok (lookupUsername : String → Int) (a a' : ReadAcc)
    (f : PathObs) (h : processOnePath lookupUsername a f = .ok a') :
    a'.inodes = a.inodes ++ observedInodes [f] := by
  cases hstat : f.stat with
  | notExist =>
    simp only [processOnePath, hstat] at h
    cases h
    simp [observedInodes, hstat]
  | statErr =>
    simp only [processOnePath, hstat] at h
    exact Except.noConfusion h
  | found j s =>
    simp only [processOnePath, hstat] at h
    have hobs : observedInodes [f] = [j] := by
      simp [observedInodes, hstat]
    rw [hobs]
    split at h
    · cases h
      rfl
    · split at h
      · split at h
        · exact Except.noConfusion h
        · split at h
          · exact Except.noConfusion h
          · split at h
            · exact Except.noConfusion h
            · cases h
              rfl
      · cases h
        rfl

theorem runPaths_inodes_ok (lookupUsername : String → Int) :
    ∀ (fs : List PathObs) (a a' : ReadAcc),
      runPaths lookupUsername fs a = .ok a' →
      a'.inodes = a.inodes ++ observedInodes fs := by
  intro fs
  induction fs with
  | nil =>
    intro a a' h
    cases h
    simp [observedInodes]
  | cons f rest ih =>
    intro a a' h
    simp only [runPaths] at h
    cases hres : processOnePath lookupUsername a f with
    | ok a₁ =>
      rw [hres] at h
      have h₁ := processOnePath_inodes_ok lookupUsername a a₁ f hres
      have h₂ := ih a₁ a' h
      rw [h₂, h₁]
      have : observedInodes (f :: rest) = observedInodes [f] ++ observedInodes rest := by
        unfold observedInodes
        rw [List.filterMap_cons, List.filterMap_cons, List.filterMap_nil]
        cases hfs : f.stat <;> simp [hfs]
      rw [this, List.append_assoc]
    | error e =>
      rw [hres] at h
      cases h

/-- C10: if `ReadNew` returns early with an error, the deferred
`deleteOldRecords` still runs with only the inodes observed before the error,
so every cursor whose inode was not observed in the partial poll is dropped;
a pattern-expansion failure deletes every cursor. -/
theorem early_error_prunes_cursors :
    (∀ (lookupUsername : String → Int) (paths : List PathObs) (st : ReaderState),
      (ReadNew lookupUsername false paths st).state.fileRecords = [] ∧
      (ReadNew lookupUsername false paths st).result =
        .error "failed to expand file pattern") ∧
    (∀ (lookupUsername : String → Int) (st : ReaderState) (paths₁ : List PathObs)
        (f : PathObs) (paths₂ : List PathObs) (a₁ : ReadAcc),
      runPaths lookupUsername paths₁ (initAcc st) = .ok a₁ →
      f.stat = .statErr →
      (ReadNew lookupUsername true (paths₁ ++ f :: paths₂) st).result =
        .error "unexpected error when looking up file" ∧
      (∀ p ∈ (ReadNew lookupUsername true (paths₁ ++ f :: paths₂) st).state.fileRecords,
        p.1 ∈ observedInodes paths₁)) := by
  constructor
  · intro lookupUsername paths st
    constructor
    · simp [ReadNew, finishRead, applyPends, deleteOldRecords, initAcc,
        List.filter_eq_nil_iff]
    · simp [ReadNew]
  · intro lookupUsername st paths₁ f paths₂ a₁ h1 hstat
    have hrun : runPaths lookupUsername (paths₁ ++ f :: paths₂) (initAcc st) =
        .error ("unexpected error when looking up file", a₁) := by
      rw [runPaths_append, h1]
      simp only [runPaths, processOnePath, hstat]
    have hinodes : a₁.inodes = observedInodes paths₁ := by
      have := runPaths_inodes_ok lookupUsername paths₁ (initAcc st) a₁ h1
      simpa [initAcc] using this
    have hstate : (ReadNew lookupUsername true (paths₁ ++ f :: paths₂) st).state =
        finishRead a₁ := by
      unfold ReadNew
      simp only [Bool.not_true, Bool.false_eq_true, if_false]
      rw [hrun]
    constructor
    · unfold ReadNew
      simp only [Bool.not_true, Bool.false_eq_true, if_false]
      rw [hrun]
    · intro p hp
      rw [hstate] at hp
      unfold finishRead at hp
      have hmem := mem_deleteOldRecords _ _ p hp
      rwa [hinodes] at hmem

/-- C10 witness: a stat error on the second path keeps only the cursor of
the inode observed on the first path; the glob-failure branch deletes every
cursor. -/
theorem early_error_prunes_cursors_witness :
    ((ReadNew sampleLookup false [growOpenFail] sampleReaderState).state.fileRecords = [] ∧
      (ReadNew sampleLookup false [growOpenFail] sampleReaderState).result =
        .error "failed to expand file pattern") ∧
    ((ReadNew sampleLookup true ([] ++ statErrFile :: [emptyNewFile]) sampleReaderState).result =
        .error "unexpected error when looking up file" ∧
      (∀ p ∈ (ReadNew sampleLookup true ([] ++ statErrFile :: [emptyNewFile]) sampleReaderState).state.fileRecords,
        p.1 ∈ observedInodes ([] : List PathObs))) :=
  ⟨early_error_prunes_cursors.1 sampleLookup [growOpenFail] sampleReaderState,
   early_error_prunes_cursors.2 sampleLookup sampleReaderState [] statErrFile
     [emptyNewFile] (initAcc sampleReaderState) rfl rfl⟩
